import Mathlib

/-!
A verification development for mkova.py, a tool that converts a
monolithic-sparse VMDK disk image into a stream-optimized VMDK packaged
in an OVA archive.

The Python source is shallowly embedded: byte strings are `List Nat`
(one entry per byte), file reads become list operations, and the output
file is the list of bytes written so far (so `outf.tell()` is the length
of that list).  zlib compression is kept abstract as a function
parameter `compress`, and the randomized parts of the embedded image
descriptor (CID, longCID and the float-rendered cylinder count) are
taken as a parameter holding the rendered descriptor bytes; the
cylinder computation itself is modelled separately in exact arithmetic.
Exceptions raised by the Python code (struct.error on a short read or a
mis-sized pack, the bare `raise Exception` alignment assertions, and
ZeroDivisionError) become an `Except` error result.
-/

set_option maxRecDepth 16000

namespace Mkova

def SECTOR_SIZE : Nat := 512

def MARKER_EOS : Nat := 0
def MARKER_GT : Nat := 1
def MARKER_GD : Nat := 2
def MARKER_FOOTER : Nat := 3

/-- Little-endian encoding of `v` in `w` bytes, as `struct.pack` lays out
the fixed-width unsigned integer codes (`B`, `H`, `I`, `Q`).  A value that
does not fit is truncated; the Python library would raise instead, and
every value the program packs in a run this development reasons about is
in range. -/
def leBytes : Nat → Nat → List Nat
  | 0, _ => []
  | w + 1, v => v % 256 :: leBytes w (v / 256)

/-- Little-endian decoding of a byte string, as `struct.unpack` does. -/
def leVal : List Nat → Nat
  | [] => 0
  | b :: rest => b + 256 * leVal rest

/-- Reading `n` bytes at absolute position `pos`, i.e. `f.seek(pos*…)`
followed by `f.read(n)`.  A read past the end of the file returns only
the bytes that exist, exactly as Python's `read` does. -/
def readAt (f : List Nat) (pos n : Nat) : List Nat := (f.drop pos).take n

/-- mkova.py `pad_to_sector`: pad with zero bytes up to the sector
boundary.  (Python's `if padding:` branch returns `b` unchanged when the
padding is zero, which coincides with appending zero zeros.) -/
def pad_to_sector (b : List Nat) : List Nat :=
  let l := b.length
  let sectors := (l + SECTOR_SIZE - 1) / SECTOR_SIZE
  let padding := sectors * SECTOR_SIZE - l
  b ++ List.replicate padding 0

/-- mkova.py `create_marker`:
`struct.pack("=QII496B", sectors, size, marker_type, 0, …, 0)`. -/
def create_marker (marker_type sectors size : Nat) : List Nat :=
  leBytes 8 sectors ++ leBytes 4 size ++ leBytes 4 marker_type ++ List.replicate 496 0

/-- Decoding of `struct.unpack(f'={n}I', b)` where `b` has `4*n` bytes;
trailing bytes that do not fill a word are dropped (the callers check the
length first, as the Python `struct` module does). -/
def unpackU32s : List Nat → List Nat
  | b0 :: b1 :: b2 :: b3 :: rest => leVal [b0, b1, b2, b3] :: unpackU32s rest
  | _ => []

/-- Encoding of `struct.pack(f'{n}I', *l)`. -/
def packU32s : List Nat → List Nat
  | [] => []
  | v :: rest => leBytes 4 v ++ packU32s rest

/-- The fields of `struct.unpack("=IIIQQQQIQQQBccccH433B", header)` that
mkova.py binds on lines 84-87 (the trailing 433 pad bytes are dropped). -/
structure SparseHeader where
  magicNumber : Nat
  version : Nat
  flags : Nat
  capacity : Nat
  grainSize : Nat
  descriptorOffset : Nat
  descriptorSize : Nat
  numGTEsPerGT : Nat
  rgdOffset : Nat
  gdOffset : Nat
  overHead : Nat
  uncleanShutdown : Nat
  singleEndLineChar : Nat
  nonEndLineChar : Nat
  doubleEndLineChar1 : Nat
  doubleEndLineChar2 : Nat
  compressAlgorithm : Nat
deriving DecidableEq, Repr

/-- Field offsets of `"=IIIQQQQIQQQBccccH433B"`: I I I at 0/4/8, then
Q at 12/20/28/36, I at 44, Q at 48/56/64, B at 72, four c at 73-76,
H at 77, 433 pad bytes from 79.  Decode each field little-endian. -/
def unpackHeader (b : List Nat) : SparseHeader :=
  { magicNumber := leVal (readAt b 0 4)
    version := leVal (readAt b 4 4)
    flags := leVal (readAt b 8 4)
    capacity := leVal (readAt b 12 8)
    grainSize := leVal (readAt b 20 8)
    descriptorOffset := leVal (readAt b 28 8)
    descriptorSize := leVal (readAt b 36 8)
    numGTEsPerGT := leVal (readAt b 44 4)
    rgdOffset := leVal (readAt b 48 8)
    gdOffset := leVal (readAt b 56 8)
    overHead := leVal (readAt b 64 8)
    uncleanShutdown := leVal (readAt b 72 1)
    singleEndLineChar := leVal (readAt b 73 1)
    nonEndLineChar := leVal (readAt b 74 1)
    doubleEndLineChar1 := leVal (readAt b 75 1)
    doubleEndLineChar2 := leVal (readAt b 76 1)
    compressAlgorithm := leVal (readAt b 77 2) }

/-- `struct.pack("=IIIQQQQIQQQBccccH433B", *fields)`. -/
def packHeader (h : SparseHeader) : List Nat :=
  leBytes 4 h.magicNumber ++ leBytes 4 h.version ++ leBytes 4 h.flags ++
  leBytes 8 h.capacity ++ leBytes 8 h.grainSize ++ leBytes 8 h.descriptorOffset ++
  leBytes 8 h.descriptorSize ++ leBytes 4 h.numGTEsPerGT ++ leBytes 8 h.rgdOffset ++
  leBytes 8 h.gdOffset ++ leBytes 8 h.overHead ++ leBytes 1 h.uncleanShutdown ++
  leBytes 1 h.singleEndLineChar ++ leBytes 1 h.nonEndLineChar ++
  leBytes 1 h.doubleEndLineChar1 ++ leBytes 1 h.doubleEndLineChar2 ++
  leBytes 2 h.compressAlgorithm ++ List.replicate 433 0

/-- Lines 82-87: read the first sector and unpack the sparse header. -/
def parse_header (inf : List Nat) : SparseHeader := unpackHeader (readAt inf 0 SECTOR_SIZE)

/-- The exceptions `stream_optimize_vmdk` can raise: `structError` for a
`struct.error` (short read at unpack, or a pack whose argument count does
not match the format), `alignment` for the bare `raise Exception`
sector-alignment assertions, and `zeroDivision` for the
`ZeroDivisionError` raised by `ceil(capacity/sectorsInGT)` when the
parsed header has `grainSize * numGTEsPerGT == 0`. -/
inductive VmdkError where
  | structError
  | alignment
  | zeroDivision
deriving DecidableEq, Repr

/-- Line 97: `capacity = ceil(newsize*1024*1024*1024/SECTOR_SIZE)`.
Python divides floats, but `newsize*2^30` is an exact multiple of 512 and
the quotient is exactly representable for every disk size the tool can
meet, so the exact ceiling division models it. -/
def requested_sectors (newsize : Nat) : Nat :=
  (newsize * 1024 * 1024 * 1024 + (SECTOR_SIZE - 1)) / SECTOR_SIZE

/-- Line 100: `newGTs = ceil(capacity/sectorsInGT)` (exact ceiling
division; see `requested_sectors` for the float caveat). -/
def new_GTs (h : SparseHeader) (newsize : Nat) : Nat :=
  let sectorsInGT := h.grainSize * h.numGTEsPerGT
  (requested_sectors newsize + sectorsInGT - 1) / sectorsInGT

/-- Line 101: `capacity = newGTs * sectorsInGT`. -/
def new_capacity (h : SparseHeader) (newsize : Nat) : Nat :=
  new_GTs h newsize * (h.grainSize * h.numGTEsPerGT)

/-- Lines 107-108: `totalGrains = ceil(sectors/grainSize)`;
`totalGTs = ceil(totalGrains/numGTEsPerGT)` (on the SOURCE capacity). -/
def total_gts (h : SparseHeader) : Nat :=
  let totalGrains := (h.capacity + h.grainSize - 1) / h.grainSize
  (totalGrains + h.numGTEsPerGT - 1) / h.numGTEsPerGT

/-- Lines 110-114: seek to `gdOffset*512`, read `totalGTs*4` bytes and
unpack them as the grain directory. -/
def source_gdes (inf : List Nat) (h : SparseHeader) : List Nat :=
  unpackU32s (readAt inf (h.gdOffset * SECTOR_SIZE) (total_gts h * 4))

/-- Lines 117-121: for EVERY grain-directory entry (including entries
equal to 0) seek to `gt_offset*512` and read `numGTEsPerGT*4` bytes of
grain-table entries.  `struct.unpack` raises (here: `structError`) when
the read came back short. -/
def load_gts (inf : List Nat) (numGTEsPerGT : Nat) : List Nat → Except VmdkError (List (List Nat))
  | [] => .ok []
  | gt_offset :: rest =>
    let gt := readAt inf (gt_offset * SECTOR_SIZE) (numGTEsPerGT * 4)
    if gt.length ≠ numGTEsPerGT * 4 then .error .structError
    else
      match load_gts inf numGTEsPerGT rest with
      | .error e => .error e
      | .ok gts => .ok (unpackU32s gt :: gts)

/-- Lines 92-105 and 134: the header written at the head of the output
(and, with `gdOffset` patched, in the footer). -/
def new_header (h : SparseHeader) (newsize : Nat) : SparseHeader :=
  { h with
    version := 3
    rgdOffset := 0
    flags := 0x30001
    compressAlgorithm := 1
    capacity := new_capacity h newsize
    singleEndLineChar := 10
    nonEndLineChar := 32
    doubleEndLineChar1 := 13
    doubleEndLineChar2 := 10 }

/-- The mutable state of the transcoding loop: `out` is the content of
the output file `outf` (the bytes written so far), `pos` is the file
position `outf.tell()` (every write advances it by the number of bytes
written, so it always equals `out.length`; carrying it separately keeps
concrete evaluation shallow), `inPtr` the virtual input pointer, and —
as a specification-only observation the Python code does not return —
`markers` is the list of output positions at which a marker (grain
marker, GT marker, GD marker, footer marker, EOS marker) was written. -/
structure GState where
  out : List Nat
  pos : Nat
  inPtr : Nat
  markers : List Nat
deriving Repr

/-- `outf.write(b)`. -/
def write (st : GState) (b : List Nat) : GState :=
  { st with out := st.out ++ b, pos := st.pos + b.length }

/-- `outf.write(b)` where `b` begins a marker: additionally record the
position at which the marker starts. -/
def write_marker (st : GState) (b : List Nat) : GState :=
  { st with
    out := st.out ++ b
    pos := st.pos + b.length
    markers := st.markers ++ [st.pos] }

/-- Lines 139-143: write the new sparse header and the padded image
descriptor, then zero-pad up to `overHead` sectors if short of it
(`padlen = overHead * SECTOR_SIZE - outf.tell(); if padlen > 0: …`). -/
def init_state (dsc : List Nat) (h : SparseHeader) (newsize : Nat) : GState :=
  let st0 : GState := { out := [], pos := 0, inPtr := 0, markers := [] }
  let st1 := write (write st0 (packHeader (new_header h newsize))) (pad_to_sector dsc)
  if st1.pos < h.overHead * SECTOR_SIZE then
    write st1 (List.replicate (h.overHead * SECTOR_SIZE - st1.pos) 0)
  else st1

/-- Lines 167-197, the body of `for i in range(len(gt))`: rewrite one
grain table in place.  Returns the final state together with the new
grain-table entries (`gt[i]` after mutation). -/
def process_gtes (compress : List Nat → List Nat) (inf : List Nat) (grainSize : Nat) :
    GState → List Nat → Except VmdkError (GState × List Nat)
  | st, [] => .ok (st, [])
  | st, offset :: rest =>
    if offset ≤ 1 then
      -- zero-filled grain: store 0, advance the virtual pointer
      match process_gtes compress inf grainSize
          { st with inPtr := st.inPtr + grainSize } rest with
      | .error e => .error e
      | .ok (st', ngt) => .ok (st', 0 :: ngt)
    else
      let grainData := readAt inf (offset * SECTOR_SIZE) (grainSize * SECTOR_SIZE)
      let compressedGrainData := compress grainData
      if st.pos % SECTOR_SIZE ≠ 0 then .error .alignment
      else
        -- gt[i] = outf.tell() / 512, then grain marker + payload, padded
        let g := st.pos / SECTOR_SIZE
        let padded := pad_to_sector
          (leBytes 8 st.inPtr ++ leBytes 4 compressedGrainData.length ++ compressedGrainData)
        match process_gtes compress inf grainSize
            { write_marker st padded with inPtr := st.inPtr + grainSize } rest with
        | .error e => .error e
        | .ok (st', ngt) => .ok (st', g :: ngt)

/-- Lines 154-215, the body of `for gt in gts`: skip all-zero grain
tables, otherwise rewrite the grains, then write the GT marker and the
rewritten table.  Returns the final state, the new grain directory
entries, and the rewritten grain tables (the final contents of the
mutated Python lists in `gts`). -/
def process_gts (compress : List Nat → List Nat) (inf : List Nat)
    (grainSize numGTEsPerGT : Nat) :
    GState → List (List Nat) → Except VmdkError (GState × List Nat × List (List Nat))
  | st, [] => .ok (st, [], [])
  | st, gt :: rest =>
    if gt = List.replicate numGTEsPerGT 0 then
      match process_gts compress inf grainSize numGTEsPerGT
          { st with inPtr := st.inPtr + numGTEsPerGT * grainSize } rest with
      | .error e => .error e
      | .ok (st', gds, ngts) => .ok (st', 0 :: gds, gt :: ngts)
    else
      match process_gtes compress inf grainSize st gt with
      | .error e => .error e
      | .ok (st1, ngt) =>
        if st1.pos % SECTOR_SIZE ≠ 0 then .error .alignment
        else
          -- GT marker (sectors = len(gt)*4/512), then position check,
          -- then the table itself; the new GDE is that position / 512
          let st2 := write_marker st1 (create_marker MARKER_GT (ngt.length * 4 / SECTOR_SIZE) 0)
          if st2.pos % SECTOR_SIZE ≠ 0 then .error .alignment
          else if ngt.length ≠ numGTEsPerGT then .error .structError
          else
            match process_gts compress inf grainSize numGTEsPerGT
                (write st2 (packU32s ngt)) rest with
            | .error e => .error e
            | .ok (st', gds, ngts) => .ok (st', st2.pos / SECTOR_SIZE :: gds, ngt :: ngts)

/-- Lines 218-222: pad the new grain directory with zero entries up to
`newGTs` (Python's `if paddingGTs > 0` coincides with truncated Nat
subtraction). -/
def final_gd (h : SparseHeader) (newsize : Nat) (gds : List Nat) : List Nat :=
  gds ++ List.replicate (new_GTs h newsize - gds.length) 0

/-- The result of a successful transcode.  `out` is the byte content of
the output file.  The remaining fields are specification-only
observations of the Python function's internal state when it finishes
(it returns nothing itself): the mutated grain tables, the padded new
grain directory, the head header bytes, the footer header bytes, the
byte position / sector number at which the grain-directory bytes were
written, and the positions of all markers. -/
structure TranscodeResult where
  out : List Nat
  gts : List (List Nat)
  newGrainDirectory : List Nat
  headerBytes : List Nat
  footerBytes : List Nat
  gdStartPos : Nat
  gdOffsetNew : Nat
  markerPositions : List Nat
  endPos : Nat
deriving Repr

/-- Lines 81-121 of `stream_optimize_vmdk`: read and unpack the header
(struct.error when the file is shorter than one sector), fail with
`ZeroDivisionError` when `sectorsInGT == 0` (raised on line 100 before
any table is read), read the grain directory, and load every grain
table. -/
def read_source (inf : List Nat) : Except VmdkError (SparseHeader × List (List Nat)) :=
  if (readAt inf 0 SECTOR_SIZE).length ≠ SECTOR_SIZE then .error .structError
  else
    let h := parse_header inf
    if h.grainSize * h.numGTEsPerGT = 0 then .error .zeroDivision
    else if (readAt inf (h.gdOffset * SECTOR_SIZE) (total_gts h * 4)).length ≠ total_gts h * 4
      then .error .structError
    else Except.map (fun gts => (h, gts)) (load_gts inf h.numGTEsPerGT (source_gdes inf h))

/-- Lines 123-252: emit the output stream.  `dsc` is the rendered image
descriptor string (its CID/longCID/cylinder text is randomized in the
source and therefore a parameter here). -/
def emit_stream (compress : List Nat → List Nat) (dsc : List Nat) (h : SparseHeader)
    (gts : List (List Nat)) (inf : List Nat) (newsize : Nat) :
    Except VmdkError TranscodeResult :=
  match process_gts compress inf h.grainSize h.numGTEsPerGT
      (init_state dsc h newsize) gts with
  | .error e => .error e
  | .ok (st, gds, ngts) =>
    let newGD := pad_to_sector (packU32s (final_gd h newsize gds))
    let st2 := write_marker st (create_marker MARKER_GD (newGD.length / SECTOR_SIZE) 0)
    if st2.pos % SECTOR_SIZE ≠ 0 then .error .alignment
    else
      let gdOffsetNew := st2.pos / SECTOR_SIZE
      let st3 := write st2 newGD
      let footer := packHeader { new_header h newsize with gdOffset := gdOffsetNew }
      let st4 := write_marker st3 (create_marker MARKER_FOOTER 1 0)
      let st5 := write st4 footer
      let st6 := write_marker st5 (create_marker MARKER_EOS 0 0)
      .ok { out := st6.out
            gts := ngts
            newGrainDirectory := final_gd h newsize gds
            headerBytes := packHeader (new_header h newsize)
            footerBytes := footer
            gdStartPos := st2.pos
            gdOffsetNew := gdOffsetNew
            markerPositions := st6.markers
            endPos := st6.pos }

/-- mkova.py `stream_optimize_vmdk(inf, outf, newsize)`: the full
transcode.  `compress` stands for `zlib.compress` and `dsc` for the
rendered (randomized) descriptor text. -/
def stream_optimize_vmdk (compress : List Nat → List Nat) (dsc : List Nat)
    (inf : List Nat) (newsize : Nat) : Except VmdkError TranscodeResult :=
  match read_source inf with
  | .error e => .error e
  | .ok (h, gts) => emit_stream compress dsc h gts inf newsize

/-- Exact rational value of line 126,
`cylinders = ((capacity + (63*255) - 1) / (63*255))`: in Python 3 the
`/` is float division, so `cylinders` is a float (that the template then
renders with `str`), not the integer ceiling the `(… + d - 1)` idiom
expects.  The value is modelled exactly as a rational; the Python float
is the nearest double to it. -/
def cylinders_code (capacity : Nat) : Rat :=
  ((capacity : Rat) + (63 * 255) - 1) / (63 * 255)

/-- The integer ceiling `ceil(capacity / (63*255))` that the descriptor
template's `ddb.geometry.cylinders` line documents. -/
def cylinders_spec (capacity : Nat) : Nat :=
  (capacity + (63 * 255) - 1) / (63 * 255)

/-- The two artifacts of `OVAFile.write` this development reasons about:
the `ovf:size` attribute that `OVAFile.__generate_ovf` puts on the
`References/File` element, and the transcoded VMDK bytes.  Line 419 sets
the attribute from `os.path.getsize(self.__vmdk)` — the SOURCE vmdk path
— and `__generate_ovf` runs (line 439) before the transcode (line 452),
so the attribute is the source file's size. -/
structure OVAResult where
  ovfFileSize : Nat
  vmdkOut : List Nat
deriving Repr

/-- Lines 438-457 of `OVAFile.write`, reduced to the OVF size attribute
and the transcoded VMDK (tar packaging is byte-level plumbing around
these two). -/
def ovafile_write (compress : List Nat → List Nat) (dsc : List Nat)
    (srcVmdk : List Nat) (disksize : Nat) : Except VmdkError OVAResult :=
  let size_attr := srcVmdk.length
  match stream_optimize_vmdk compress dsc srcVmdk disksize with
  | .error e => .error e
  | .ok r => .ok { ovfFileSize := size_attr, vmdkOut := r.out }

/-- A filesystem: each path holds a byte string or nothing. -/
def FS := String → Option (List Nat)

/-- `os.path.exists(p)` -/
def os_path_exists (fs : FS) (p : String) : Bool := (fs p).isSome

/-- `os.unlink(p)` -/
def os_unlink (fs : FS) (p : String) : FS := fun q => if q = p then none else fs q

/-- `tarfile.open(outpath, 'x')` followed by writing the archive members
and closing: mode `'x'` creates exclusively and fails if the path
already exists. -/
def tarfile_create_x (fs : FS) (p : String) (content : List Nat) : Except Unit FS :=
  match fs p with
  | some _ => .error ()
  | none => .ok (fun q => if q = p then some content else fs q)

/-- Lines 441-444 of `OVAFile.write`, as they act on the output path:
`if os.path.exists(outpath): os.unlink(outpath)` and then
`tarfile.open(outpath, 'x')` with the archive written there. -/
def ovafile_write_out (fs : FS) (outpath : String) (archive : List Nat) : Except Unit FS :=
  let fs1 := if os_path_exists fs outpath then os_unlink fs outpath else fs
  tarfile_create_x fs1 outpath archive

/-! ### Basic facts about the byte-level codecs -/

theorem leBytes_length (w v : Nat) : (leBytes w v).length = w := by
  induction w generalizing v with
  | zero => rfl
  | succ w ih => simp [leBytes, ih]

theorem leVal_leBytes (w v : Nat) : leVal (leBytes w v) = v % 2 ^ (8 * w) := by
  induction w generalizing v with
  | zero => simp [leBytes, leVal, Nat.mod_one]
  | succ w ih =>
    have hpow : (2 : Nat) ^ (8 * (w + 1)) = 256 * 2 ^ (8 * w) := by
      rw [Nat.mul_add, Nat.pow_add]; ring
    rw [leBytes, leVal, ih, hpow, Nat.mod_mul]

theorem create_marker_length (t s z : Nat) : (create_marker t s z).length = SECTOR_SIZE := by
  simp [create_marker, leBytes_length, SECTOR_SIZE]

theorem leVal_leBytes_of_lt {w v : Nat} (h : v < 2 ^ (8 * w)) : leVal (leBytes w v) = v := by
  rw [leVal_leBytes, Nat.mod_eq_of_lt h]

theorem packU32s_length (l : List Nat) : (packU32s l).length = 4 * l.length := by
  induction l with
  | nil => rfl
  | cons v rest ih => simp [packU32s, leBytes_length, ih]; ring

theorem unpackU32s_length : ∀ l : List Nat, (unpackU32s l).length = l.length / 4
  | b0 :: b1 :: b2 :: b3 :: rest => by
    simp only [unpackU32s, List.length_cons, unpackU32s_length rest]
    omega
  | [] => by simp [unpackU32s]
  | [_] => by simp [unpackU32s]
  | [_, _] => by simp [unpackU32s]
  | [_, _, _] => by simp [unpackU32s]

theorem packHeader_length (h : SparseHeader) : (packHeader h).length = SECTOR_SIZE := by
  simp [packHeader, leBytes_length, SECTOR_SIZE]

/-- `readAt` within the left part of an append only sees the left part. -/
theorem readAt_append_left (l l' : List Nat) (p n : Nat) (h : p + n ≤ l.length) :
    readAt (l ++ l') p n = readAt l p n := by
  unfold readAt
  rw [List.drop_append_eq_append_drop, List.take_append_eq_append_take]
  have h1 : p - l.length = 0 := by omega
  have h2 : n - (l.drop p).length = 0 := by
    simp only [List.length_drop]; omega
  rw [h1, h2]
  simp

/-- `readAt` at an offset past the left part of an append reads the right
part. -/
theorem readAt_append_mid (l l' : List Nat) (p n : Nat) :
    readAt (l ++ l') (l.length + p) n = readAt l' p n := by
  unfold readAt
  rw [List.drop_append_eq_append_drop]
  have h1 : l.drop (l.length + p) = [] := by
    apply List.drop_eq_nil_of_le; omega
  rw [h1]
  have h2 : l.length + p - l.length = p := by omega
  rw [h2]
  simp

theorem readAt_zero (l : List Nat) (n : Nat) : readAt l 0 n = l.take n := by
  simp [readAt]

/-- Taking exactly the left part of an append. -/
theorem take_append_length (l l' : List Nat) : (l ++ l').take l.length = l := by
  rw [List.take_append_eq_append_take]
  simp

theorem readAt_length {l : List Nat} {p n : Nat} (h : p + n ≤ l.length) :
    (readAt l p n).length = n := by
  simp only [readAt, List.length_take, List.length_drop]
  omega

/-- The ceiling-rounded multiple is at least the original value. -/
theorem le_ceil_mul {a b : Nat} (hb : 0 < b) : a ≤ (a + b - 1) / b * b := by
  rcases Nat.eq_zero_or_pos a with ha | ha
  · simp [ha]
  · have h1 : a + b - 1 = (a - 1) + b := by omega
    rw [h1, Nat.add_div_right _ hb, Nat.add_mul, Nat.one_mul]
    have h2 : (a - 1) / b * b + (a - 1) % b = a - 1 := Nat.div_add_mod' (a - 1) b
    have h3 : (a - 1) % b < b := Nat.mod_lt _ hb
    generalize (a - 1) / b * b = x at h2 ⊢
    omega

theorem pad_to_sector_spine (b : List Nat) :
    pad_to_sector b
      = b ++ List.replicate ((b.length + SECTOR_SIZE - 1) / SECTOR_SIZE * SECTOR_SIZE - b.length) 0 := rfl

theorem pad_to_sector_length (b : List Nat) :
    (pad_to_sector b).length = (b.length + SECTOR_SIZE - 1) / SECTOR_SIZE * SECTOR_SIZE := by
  have hle : b.length ≤ (b.length + SECTOR_SIZE - 1) / SECTOR_SIZE * SECTOR_SIZE :=
    le_ceil_mul (by norm_num [SECTOR_SIZE])
  simp only [pad_to_sector, List.length_append, List.length_replicate]
  omega

theorem pad_to_sector_length_mod (b : List Nat) :
    (pad_to_sector b).length % SECTOR_SIZE = 0 := by
  rw [pad_to_sector_length]
  exact Nat.mul_mod_left _ _

/-- `pad_to_sector` keeps the original bytes as a prefix. -/
theorem pad_to_sector_prefix_le (b : List Nat) :
    b.length ≤ (pad_to_sector b).length := by
  simp [pad_to_sector]

theorem readAt_append_at (l l' : List Nat) (p q n : Nat) (hp : p = l.length + q) :
    readAt (l ++ l') p n = readAt l' q n := by
  subst hp; exact readAt_append_mid l l' q n

theorem take_exact (l l' : List Nat) (n : Nat) (h : l.length = n) : (l ++ l').take n = l := by
  subst h; exact take_append_length l l'

/-! ### Decompositions of the packed header -/

/-- The first 56 bytes of a packed header: every field before `gdOffset`
(`I I I` at 0, `Q Q Q Q` at 12, `I` at 44, `Q` at 48). -/
def headerPre (h : SparseHeader) : List Nat :=
  leBytes 4 h.magicNumber ++ leBytes 4 h.version ++ leBytes 4 h.flags ++
  leBytes 8 h.capacity ++ leBytes 8 h.grainSize ++ leBytes 8 h.descriptorOffset ++
  leBytes 8 h.descriptorSize ++ leBytes 4 h.numGTEsPerGT ++ leBytes 8 h.rgdOffset

/-- Bytes 64-511 of a packed header: every field after `gdOffset`. -/
def headerPost (h : SparseHeader) : List Nat :=
  leBytes 8 h.overHead ++ leBytes 1 h.uncleanShutdown ++
  leBytes 1 h.singleEndLineChar ++ leBytes 1 h.nonEndLineChar ++
  leBytes 1 h.doubleEndLineChar1 ++ leBytes 1 h.doubleEndLineChar2 ++
  leBytes 2 h.compressAlgorithm ++ List.replicate 433 0

theorem packHeader_decomp (h : SparseHeader) :
    packHeader h = headerPre h ++ (leBytes 8 h.gdOffset ++ headerPost h) := by
  simp [packHeader, headerPre, headerPost, List.append_assoc]

theorem headerPre_length (h : SparseHeader) : (headerPre h).length = 56 := by
  simp [headerPre, leBytes_length]

theorem headerPost_length (h : SparseHeader) : (headerPost h).length = 448 := by
  simp [headerPost, leBytes_length]

theorem headerPre_set_gdOffset (h : SparseHeader) (v : Nat) :
    headerPre { h with gdOffset := v } = headerPre h := rfl

theorem headerPost_set_gdOffset (h : SparseHeader) (v : Nat) :
    headerPost { h with gdOffset := v } = headerPost h := rfl

/-- Bytes 56-63 of a packed header are the little-endian `gdOffset`. -/
theorem packHeader_gdOffset_seg (h : SparseHeader) :
    readAt (packHeader h) 56 8 = leBytes 8 h.gdOffset := by
  rw [packHeader_decomp,
    readAt_append_at _ _ 56 0 8 (by rw [headerPre_length]),
    readAt_zero, take_exact _ _ 8 (leBytes_length 8 _)]

/-- Bytes 12-19 of a packed header are the little-endian `capacity`. -/
theorem packHeader_capacity_seg (h : SparseHeader) :
    readAt (packHeader h) 12 8 = leBytes 8 h.capacity := by
  have hd : packHeader h
      = (leBytes 4 h.magicNumber ++ leBytes 4 h.version ++ leBytes 4 h.flags) ++
        (leBytes 8 h.capacity ++ (leBytes 8 h.grainSize ++ leBytes 8 h.descriptorOffset ++
         leBytes 8 h.descriptorSize ++ leBytes 4 h.numGTEsPerGT ++ leBytes 8 h.rgdOffset ++
         leBytes 8 h.gdOffset ++ leBytes 8 h.overHead ++ leBytes 1 h.uncleanShutdown ++
         leBytes 1 h.singleEndLineChar ++ leBytes 1 h.nonEndLineChar ++
         leBytes 1 h.doubleEndLineChar1 ++ leBytes 1 h.doubleEndLineChar2 ++
         leBytes 2 h.compressAlgorithm ++ List.replicate 433 0)) := by
    simp [packHeader, List.append_assoc]
  rw [hd, readAt_append_at _ _ 12 0 8 (by simp [leBytes_length]),
    readAt_zero, take_exact _ _ 8 (leBytes_length 8 _)]

/-- Two packed headers that differ only in `gdOffset` agree outside byte
range [56, 64). -/
theorem packHeader_agree_outside_gdOffset (h : SparseHeader) (v : Nat) (k : Nat)
    (hk : k < 56 ∨ 64 ≤ k) :
    (packHeader { h with gdOffset := v }).get? k = (packHeader h).get? k := by
  rw [packHeader_decomp, packHeader_decomp, headerPre_set_gdOffset, headerPost_set_gdOffset]
  rcases hk with hk | hk
  · rw [List.get?_append (by rw [headerPre_length]; exact hk),
      List.get?_append (by rw [headerPre_length]; exact hk)]
  · have h1 : (headerPre h).length ≤ k := by rw [headerPre_length]; omega
    rw [List.get?_append_right h1, List.get?_append_right h1]
    have h2 : (leBytes 8 v).length ≤ k - (headerPre h).length := by
      rw [leBytes_length, headerPre_length]; omega
    have h3 : (leBytes 8 h.gdOffset).length ≤ k - (headerPre h).length := by
      rw [leBytes_length, headerPre_length]; omega
    rw [List.get?_append_right h2, List.get?_append_right h3, leBytes_length, leBytes_length]

/-! ### The writer state -/

/-- The writer invariant: the tracked position equals the number of
bytes written. -/
def GState.wf (st : GState) : Prop := st.pos = st.out.length

theorem wf_write {st : GState} (hwf : st.wf) (b : List Nat) : (write st b).wf := by
  simp [GState.wf, write] at hwf ⊢
  simp [hwf]

theorem wf_write_marker {st : GState} (hwf : st.wf) (b : List Nat) : (write_marker st b).wf := by
  simp [GState.wf, write_marker] at hwf ⊢
  simp [hwf]

theorem wf_init_state (dsc : List Nat) (h : SparseHeader) (newsize : Nat) :
    (init_state dsc h newsize).wf := by
  have h0 : ({ out := [], pos := 0, inPtr := 0, markers := [] } : GState).wf := rfl
  simp only [init_state]
  split
  · exact wf_write (wf_write (wf_write h0 _) _) _
  · exact wf_write (wf_write h0 _) _

/-! ### The grain markers of the output stream -/

/-- The compressed payload of the source grain at sector offset `off`:
`zlib.compress(inf.read(grainSize*512))` after seeking to `off*512`. -/
def comp_of (compress : List Nat → List Nat) (inf : List Nat) (grainSize off : Nat) : List Nat :=
  compress (readAt inf (off * SECTOR_SIZE) (grainSize * SECTOR_SIZE))

/-- The grain marker written for the source grain at sector offset
`off`, as it appears at output sector `g`: bytes 8-11 hold the
compressed length, and the compressed payload follows from byte 12. -/
def grain_at (compress : List Nat → List Nat) (inf : List Nat) (grainSize : Nat)
    (out : List Nat) (off g : Nat) : Prop :=
  g * SECTOR_SIZE + 12 + (comp_of compress inf grainSize off).length ≤ out.length ∧
  readAt out (g * SECTOR_SIZE + 8) 4 = leBytes 4 (comp_of compress inf grainSize off).length ∧
  readAt out (g * SECTOR_SIZE + 12) (comp_of compress inf grainSize off).length
    = comp_of compress inf grainSize off

/-- Appending further output keeps every established grain marker. -/
theorem grain_at_mono {compress : List Nat → List Nat} {inf : List Nat} {grainSize : Nat}
    {out : List Nat} {off g : Nat} (suf : List Nat)
    (hg : grain_at compress inf grainSize out off g) :
    grain_at compress inf grainSize (out ++ suf) off g := by
  obtain ⟨hb, h8, h12⟩ := hg
  refine ⟨by simp only [List.length_append]; omega, ?_, ?_⟩
  · rw [readAt_append_left _ _ _ _ (by omega)]; exact h8
  · rw [readAt_append_left _ _ _ _ (by omega)]; exact h12

/-- Writing a fresh grain marker at a sector-aligned position
establishes `grain_at` at sector `pos / 512`. -/
theorem grain_at_write {compress : List Nat → List Nat} {inf : List Nat} {grainSize : Nat}
    {st : GState} (hwf : st.wf) (halign : st.pos % SECTOR_SIZE = 0) (off : Nat) :
    grain_at compress inf grainSize
      (st.out ++ pad_to_sector (leBytes 8 st.inPtr ++
        leBytes 4 (comp_of compress inf grainSize off).length ++ comp_of compress inf grainSize off))
      off (st.pos / SECTOR_SIZE) := by
  have hpos : st.pos / SECTOR_SIZE * SECTOR_SIZE = st.pos :=
    Nat.div_mul_cancel (Nat.dvd_of_mod_eq_zero halign)
  have hout : st.pos / SECTOR_SIZE * SECTOR_SIZE = st.out.length := by rw [hpos]; exact hwf
  unfold grain_at
  set c := comp_of compress inf grainSize off with hc
  set m := leBytes 8 st.inPtr ++ leBytes 4 c.length ++ c with hm
  have hmlen : m.length = 12 + c.length := by
    rw [hm]
    simp [leBytes_length]
    omega
  obtain ⟨z, hz⟩ : ∃ z, pad_to_sector m = m ++ List.replicate z 0 := ⟨_, pad_to_sector_spine m⟩
  refine ⟨?_, ?_, ?_⟩
  · simp only [List.length_append, hz, hmlen, List.length_replicate]
    omega
  · rw [readAt_append_at _ _ _ 8 _ (by omega), hz, hm]
    have hassoc : (leBytes 8 st.inPtr ++ leBytes 4 c.length ++ c) ++ List.replicate z 0
        = leBytes 8 st.inPtr ++ (leBytes 4 c.length ++ (c ++ List.replicate z 0)) := by
      simp [List.append_assoc]
    rw [hassoc, readAt_append_at _ _ 8 0 4 (by rw [leBytes_length]), readAt_zero,
      take_exact _ _ 4 (leBytes_length 4 _)]
  · rw [readAt_append_at _ _ _ 12 _ (by omega), hz, hm]
    have hassoc : (leBytes 8 st.inPtr ++ leBytes 4 c.length ++ c) ++ List.replicate z 0
        = (leBytes 8 st.inPtr ++ leBytes 4 c.length) ++ (c ++ List.replicate z 0) := by
      simp [List.append_assoc]
    rw [hassoc, readAt_append_at _ _ 12 0 c.length (by simp [leBytes_length]), readAt_zero,
      take_exact _ _ c.length rfl]

theorem wf_set_inPtr {st : GState} (hwf : st.wf) (x : Nat) : ({ st with inPtr := x }).wf := hwf

/-- What one pass over a grain table guarantees: the output only grows,
the writer invariant is kept, the rewritten table has one entry per
source entry, and every present source entry (offset > 1) is given a new
entry `g` whose grain marker is established in the final output. -/
theorem process_gtes_spec (compress : List Nat → List Nat) (inf : List Nat) (grainSize : Nat) :
    ∀ (l : List Nat) (st st' : GState) (ngt : List Nat),
      process_gtes compress inf grainSize st l = .ok (st', ngt) → st.wf →
      (∃ suf, st'.out = st.out ++ suf) ∧ st'.wf ∧ ngt.length = l.length ∧
      ∀ i off, l.get? i = some off → 1 < off →
        ∃ g, ngt.get? i = some g ∧ grain_at compress inf grainSize st'.out off g
  | [], st, st', ngt, hrun, hwf => by
    simp only [process_gtes] at hrun
    cases hrun
    refine ⟨⟨[], by simp⟩, hwf, rfl, ?_⟩
    intro i off h
    simp at h
  | offset :: rest, st, st', ngt, hrun, hwf => by
    simp only [process_gtes] at hrun
    by_cases hoff : offset ≤ 1
    · rw [if_pos hoff] at hrun
      cases hrec : process_gtes compress inf grainSize
          { st with inPtr := st.inPtr + grainSize } rest with
      | error e => rw [hrec] at hrun; cases hrun
      | ok p =>
        obtain ⟨st1, ngt1⟩ := p
        rw [hrec] at hrun
        cases hrun
        obtain ⟨⟨suf, hsuf⟩, hwf', hlen, hent⟩ :=
          process_gtes_spec compress inf grainSize rest _ _ _ hrec (wf_set_inPtr hwf _)
        refine ⟨⟨suf, hsuf⟩, hwf', by simp [hlen], ?_⟩
        intro i off hget hoff1
        match i, hget with
        | 0, hget =>
          exfalso
          simp only [List.get?] at hget
          cases hget
          omega
        | i + 1, hget => exact hent i off hget hoff1
    · rw [if_neg hoff] at hrun
      by_cases halign : st.pos % SECTOR_SIZE = 0
      · rw [if_neg (not_not_intro halign)] at hrun
        cases hrec : process_gtes compress inf grainSize
            { write_marker st
                (pad_to_sector (leBytes 8 st.inPtr ++
                  leBytes 4 (compress (readAt inf (offset * SECTOR_SIZE)
                    (grainSize * SECTOR_SIZE))).length ++
                  compress (readAt inf (offset * SECTOR_SIZE) (grainSize * SECTOR_SIZE)))) with
              inPtr := st.inPtr + grainSize } rest with
        | error e => rw [hrec] at hrun; cases hrun
        | ok p =>
          obtain ⟨st1, ngt1⟩ := p
          rw [hrec] at hrun
          cases hrun
          have hwf2 : (write_marker st
              (pad_to_sector (leBytes 8 st.inPtr ++
                leBytes 4 (compress (readAt inf (offset * SECTOR_SIZE)
                  (grainSize * SECTOR_SIZE))).length ++
                compress (readAt inf (offset * SECTOR_SIZE) (grainSize * SECTOR_SIZE))))).wf :=
            wf_write_marker hwf _
          obtain ⟨⟨suf, hsuf⟩, hwf', hlen, hent⟩ :=
            process_gtes_spec compress inf grainSize rest _ _ _ hrec (wf_set_inPtr hwf2 _)
          have hout1 : st'.out = st.out ++
              (pad_to_sector (leBytes 8 st.inPtr ++
                leBytes 4 (compress (readAt inf (offset * SECTOR_SIZE)
                  (grainSize * SECTOR_SIZE))).length ++
                compress (readAt inf (offset * SECTOR_SIZE) (grainSize * SECTOR_SIZE))) ++ suf) := by
            rw [hsuf]
            simp [write_marker, List.append_assoc]
          refine ⟨⟨_, hout1⟩, hwf', by simp [hlen], ?_⟩
          intro i off hget hoff1
          match i, hget with
          | 0, hget =>
            simp only [List.get?] at hget
            cases hget
            refine ⟨st.pos / SECTOR_SIZE, rfl, ?_⟩
            have hga := @grain_at_write compress inf grainSize st hwf halign offset
            rw [hout1, ← List.append_assoc]
            exact grain_at_mono suf hga
          | i + 1, hget =>
            exact hent i off hget hoff1
      · rw [if_pos halign] at hrun
        cases hrun

/-- What the pass over all grain tables guarantees: the output only
grows, the writer invariant is kept, one rewritten table per source
table, and for every source entry with offset > 1 the rewritten table
records a sector `g` whose grain marker is established in the final
output. -/
theorem process_gts_spec (compress : List Nat → List Nat) (inf : List Nat)
    (grainSize numGTEsPerGT : Nat) :
    ∀ (l : List (List Nat)) (st st' : GState) (gds : List Nat) (ngts : List (List Nat)),
      process_gts compress inf grainSize numGTEsPerGT st l = .ok (st', gds, ngts) → st.wf →
      (∃ suf, st'.out = st.out ++ suf) ∧ st'.wf ∧ ngts.length = l.length ∧
      ∀ t gt0, l.get? t = some gt0 →
        ∃ gt1, ngts.get? t = some gt1 ∧
          ∀ i off, gt0.get? i = some off → 1 < off →
            ∃ g, gt1.get? i = some g ∧ grain_at compress inf grainSize st'.out off g
  | [], st, st', gds, ngts, hrun, hwf => by
    simp only [process_gts] at hrun
    cases hrun
    refine ⟨⟨[], by simp⟩, hwf, rfl, ?_⟩
    intro t gt0 h
    simp at h
  | gt :: rest, st, st', gds, ngts, hrun, hwf => by
    simp only [process_gts] at hrun
    by_cases hempty : gt = List.replicate numGTEsPerGT 0
    · rw [if_pos hempty] at hrun
      cases hrec : process_gts compress inf grainSize numGTEsPerGT
          { st with inPtr := st.inPtr + numGTEsPerGT * grainSize } rest with
      | error e => rw [hrec] at hrun; cases hrun
      | ok p =>
        obtain ⟨st1, gds1, ngts1⟩ := p
        rw [hrec] at hrun
        cases hrun
        obtain ⟨⟨suf, hsuf⟩, hwf', hlen, hent⟩ :=
          process_gts_spec compress inf grainSize numGTEsPerGT rest _ _ _ _ hrec
            (wf_set_inPtr hwf _)
        refine ⟨⟨suf, hsuf⟩, hwf', by simp [hlen], ?_⟩
        intro t gt0 hget
        match t, hget with
        | 0, hget =>
          simp only [List.get?] at hget
          cases hget
          refine ⟨gt, rfl, ?_⟩
          intro i off hoff h1
          exfalso
          have hmem : off ∈ gt := List.get?_mem hoff
          rw [hempty] at hmem
          have := List.eq_of_mem_replicate hmem
          omega
        | t + 1, hget => exact hent t gt0 hget
    · rw [if_neg hempty] at hrun
      cases hrecg : process_gtes compress inf grainSize st gt with
      | error e => rw [hrecg] at hrun; cases hrun
      | ok p =>
        obtain ⟨st1, ngt⟩ := p
        rw [hrecg] at hrun
        dsimp only [] at hrun
        obtain ⟨⟨suf1, hsuf1⟩, hwf1, hlen1, hent1⟩ :=
          process_gtes_spec compress inf grainSize gt st st1 ngt hrecg hwf
        by_cases halign1 : st1.pos % SECTOR_SIZE = 0
        · rw [if_neg (not_not_intro halign1)] at hrun
          by_cases halign2 :
              (write_marker st1 (create_marker MARKER_GT (ngt.length * 4 / SECTOR_SIZE) 0)).pos
                % SECTOR_SIZE = 0
          · rw [if_neg (not_not_intro halign2)] at hrun
            by_cases hcount : ngt.length = numGTEsPerGT
            · rw [if_neg (not_not_intro hcount)] at hrun
              cases hrec : process_gts compress inf grainSize numGTEsPerGT
                  (write (write_marker st1 (create_marker MARKER_GT (ngt.length * 4 / SECTOR_SIZE) 0))
                    (packU32s ngt)) rest with
              | error e => rw [hrec] at hrun; cases hrun
              | ok p =>
                obtain ⟨st2, gds2, ngts2⟩ := p
                rw [hrec] at hrun
                cases hrun
                have hwf2 :
                    (write (write_marker st1
                      (create_marker MARKER_GT (ngt.length * 4 / SECTOR_SIZE) 0))
                      (packU32s ngt)).wf :=
                  wf_write (wf_write_marker hwf1 _) _
                obtain ⟨⟨suf, hsuf⟩, hwf', hlen, hent⟩ :=
                  process_gts_spec compress inf grainSize numGTEsPerGT rest _ _ _ _ hrec hwf2
                have hout1 : st'.out = st1.out ++
                    (create_marker MARKER_GT (ngt.length * 4 / SECTOR_SIZE) 0 ++
                      (packU32s ngt ++ suf)) := by
                  rw [hsuf]
                  simp [write, write_marker, List.append_assoc]
                refine ⟨⟨suf1 ++ (create_marker MARKER_GT (ngt.length * 4 / SECTOR_SIZE) 0 ++
                    (packU32s ngt ++ suf)), by rw [hout1, hsuf1]; simp [List.append_assoc]⟩, hwf',
                  by simp [hlen], ?_⟩
                intro t gt0 hget
                match t, hget with
                | 0, hget =>
                  simp only [List.get?] at hget
                  cases hget
                  refine ⟨ngt, rfl, ?_⟩
                  intro i off hoff h1
                  obtain ⟨g, hg, hga⟩ := hent1 i off hoff h1
                  refine ⟨g, hg, ?_⟩
                  rw [hout1]
                  exact grain_at_mono _ hga
                | t + 1, hget => exact hent t gt0 hget
            · rw [if_pos hcount] at hrun
              cases hrun
          · rw [if_pos halign2] at hrun
            cases hrun
        · rw [if_pos halign1] at hrun
          cases hrun

theorem add_mod_zero {n a b : Nat} (ha : a % n = 0) (hb : b % n = 0) : (a + b) % n = 0 := by
  rw [Nat.add_mod, ha, hb]
  simp

/-- When the output position is sector aligned, a grain-table pass never
raises the alignment assertion, keeps the position aligned, and records
only aligned marker positions. -/
theorem process_gtes_align (compress : List Nat → List Nat) (inf : List Nat) (grainSize : Nat) :
    ∀ (l : List Nat) (st : GState),
      st.pos % SECTOR_SIZE = 0 → (∀ p ∈ st.markers, p % SECTOR_SIZE = 0) →
      ∃ st' ngt, process_gtes compress inf grainSize st l = .ok (st', ngt) ∧
        st'.pos % SECTOR_SIZE = 0 ∧ (∀ p ∈ st'.markers, p % SECTOR_SIZE = 0) ∧
        ngt.length = l.length
  | [], st, hpos, hmk => ⟨st, [], rfl, hpos, hmk, rfl⟩
  | offset :: rest, st, hpos, hmk => by
    by_cases hoff : offset ≤ 1
    · obtain ⟨st', ngt, hrun, hpos', hmk', hlen⟩ :=
        process_gtes_align compress inf grainSize rest
          { st with inPtr := st.inPtr + grainSize } hpos hmk
      exact ⟨st', 0 :: ngt, by simp only [process_gtes, if_pos hoff, hrun], hpos', hmk',
        by simp [hlen]⟩
    · have hpad : (pad_to_sector (leBytes 8 st.inPtr ++
          leBytes 4 (compress (readAt inf (offset * SECTOR_SIZE)
            (grainSize * SECTOR_SIZE))).length ++
          compress (readAt inf (offset * SECTOR_SIZE) (grainSize * SECTOR_SIZE)))).length
            % SECTOR_SIZE = 0 := pad_to_sector_length_mod _
      have hpos2 : ({ write_marker st (pad_to_sector (leBytes 8 st.inPtr ++
          leBytes 4 (compress (readAt inf (offset * SECTOR_SIZE)
            (grainSize * SECTOR_SIZE))).length ++
          compress (readAt inf (offset * SECTOR_SIZE) (grainSize * SECTOR_SIZE)))) with
            inPtr := st.inPtr + grainSize }).pos % SECTOR_SIZE = 0 := by
        simp only [write_marker]
        exact add_mod_zero hpos hpad
      have hmk2 : ∀ p ∈ ({ write_marker st (pad_to_sector (leBytes 8 st.inPtr ++
          leBytes 4 (compress (readAt inf (offset * SECTOR_SIZE)
            (grainSize * SECTOR_SIZE))).length ++
          compress (readAt inf (offset * SECTOR_SIZE) (grainSize * SECTOR_SIZE)))) with
            inPtr := st.inPtr + grainSize }).markers,
          p % SECTOR_SIZE = 0 := by
        simp only [write_marker, List.mem_append, List.mem_singleton]
        intro p hp
        rcases hp with hp | hp
        · exact hmk p hp
        · rw [hp]; exact hpos
      obtain ⟨st', ngt, hrun, hpos', hmk', hlen⟩ :=
        process_gtes_align compress inf grainSize rest _ hpos2 hmk2
      refine ⟨st', st.pos / SECTOR_SIZE :: ngt, ?_, hpos', hmk', by simp [hlen]⟩
      simp only [process_gtes, if_neg hoff, if_neg (not_not_intro hpos), hrun]

/-- When every grain table has `numGTEsPerGT` entries, `numGTEsPerGT*4`
is a sector multiple, and the position is aligned, the grain-table loop
never raises the alignment assertion, keeps the position aligned, and
records only aligned marker positions. -/
theorem process_gts_align (compress : List Nat → List Nat) (inf : List Nat)
    (grainSize numGTEsPerGT : Nat) (hdvd : numGTEsPerGT * 4 % SECTOR_SIZE = 0) :
    ∀ (l : List (List Nat)) (st : GState),
      (∀ gt ∈ l, gt.length = numGTEsPerGT) →
      st.pos % SECTOR_SIZE = 0 → (∀ p ∈ st.markers, p % SECTOR_SIZE = 0) →
      ∃ st' gds ngts,
        process_gts compress inf grainSize numGTEsPerGT st l = .ok (st', gds, ngts) ∧
        st'.pos % SECTOR_SIZE = 0 ∧ (∀ p ∈ st'.markers, p % SECTOR_SIZE = 0)
  | [], st, _, hpos, hmk => ⟨st, [], [], rfl, hpos, hmk⟩
  | gt :: rest, st, hlens, hpos, hmk => by
    have hglen : gt.length = numGTEsPerGT := hlens gt (by simp)
    have hlens' : ∀ g ∈ rest, g.length = numGTEsPerGT := fun g hg => hlens g (by simp [hg])
    by_cases hempty : gt = List.replicate numGTEsPerGT 0
    · obtain ⟨st', gds, ngts, hrun, hpos', hmk'⟩ :=
        process_gts_align compress inf grainSize numGTEsPerGT hdvd rest
          { st with inPtr := st.inPtr + numGTEsPerGT * grainSize } hlens' hpos hmk
      exact ⟨st', 0 :: gds, gt :: ngts,
        by simp only [process_gts, if_pos hempty, hrun], hpos', hmk'⟩
    · obtain ⟨st1, ngt, hrun1, hpos1, hmk1, hlen1⟩ :=
        process_gtes_align compress inf grainSize gt st hpos hmk
      have hcount : ngt.length = numGTEsPerGT := by rw [hlen1, hglen]
      have hpos2 : (write_marker st1
          (create_marker MARKER_GT (ngt.length * 4 / SECTOR_SIZE) 0)).pos % SECTOR_SIZE = 0 := by
        simp only [write_marker, create_marker_length]
        exact add_mod_zero hpos1 (Nat.mod_self _)
      have hmk2 : ∀ p ∈ (write_marker st1
          (create_marker MARKER_GT (ngt.length * 4 / SECTOR_SIZE) 0)).markers,
          p % SECTOR_SIZE = 0 := by
        simp only [write_marker, List.mem_append, List.mem_singleton]
        intro p hp
        rcases hp with hp | hp
        · exact hmk1 p hp
        · rw [hp]; exact hpos1
      have hpos3 : (write (write_marker st1
          (create_marker MARKER_GT (ngt.length * 4 / SECTOR_SIZE) 0))
          (packU32s ngt)).pos % SECTOR_SIZE = 0 := by
        simp only [write, write_marker, create_marker_length, packU32s_length, hcount]
        have h4 : 4 * numGTEsPerGT % SECTOR_SIZE = 0 := by rw [Nat.mul_comm]; exact hdvd
        exact add_mod_zero (add_mod_zero hpos1 (Nat.mod_self _)) h4
      obtain ⟨st', gds, ngts, hrun, hpos', hmk'⟩ :=
        process_gts_align compress inf grainSize numGTEsPerGT hdvd rest _ hlens' hpos3 hmk2
      refine ⟨st', (write_marker st1
          (create_marker MARKER_GT (ngt.length * 4 / SECTOR_SIZE) 0)).pos / SECTOR_SIZE :: gds,
        ngt :: ngts, ?_, hpos', hmk'⟩
      simp only [process_gts, if_neg hempty, hrun1, if_neg (not_not_intro hpos1),
        if_neg (not_not_intro hpos2), if_neg (not_not_intro hcount), hrun]

theorem init_state_pos_mod (dsc : List Nat) (h : SparseHeader) (newsize : Nat) :
    (init_state dsc h newsize).pos % SECTOR_SIZE = 0 := by
  have hpad := pad_to_sector_length_mod dsc
  have hph := packHeader_length (new_header h newsize)
  simp only [init_state, write]
  split
  · rename_i hlt
    simp only [write, List.length_replicate]
    rw [Nat.add_sub_cancel' (Nat.le_of_lt hlt)]
    exact Nat.mul_mod_left _ _
  · rw [hph, Nat.zero_add]
    exact add_mod_zero (Nat.mod_self _) hpad

theorem init_state_markers (dsc : List Nat) (h : SparseHeader) (newsize : Nat) :
    (init_state dsc h newsize).markers = [] := by
  simp only [init_state, write]
  split
  · rfl
  · rfl

/-! ### The loader and the two stages of the transcode -/

/-- What the grain-table loader returns: one table per directory entry,
each the decode of the `numGTEsPerGT*4` bytes read at `gde*512` — also
for `gde = 0`, in which case the bytes come from the start of the file
(the header sector), not from an all-zero table. -/
theorem load_gts_spec (inf : List Nat) (n : Nat) :
    ∀ (gdes : List Nat) (gts : List (List Nat)),
      load_gts inf n gdes = .ok gts →
      gts.length = gdes.length ∧
      ∀ t gde, gdes.get? t = some gde →
        gts.get? t = some (unpackU32s (readAt inf (gde * SECTOR_SIZE) (n * 4)))
  | [], gts, hrun => by
    simp only [load_gts] at hrun
    cases hrun
    refine ⟨rfl, ?_⟩
    intro t gde hget
    simp at hget
  | gde0 :: rest, gts, hrun => by
    simp only [load_gts] at hrun
    by_cases hlen : (readAt inf (gde0 * SECTOR_SIZE) (n * 4)).length ≠ n * 4
    · rw [if_pos hlen] at hrun; cases hrun
    · rw [if_neg hlen] at hrun
      cases hrec : load_gts inf n rest with
      | error e => rw [hrec] at hrun; cases hrun
      | ok gts1 =>
        rw [hrec] at hrun
        cases hrun
        obtain ⟨hl, hent⟩ := load_gts_spec inf n rest gts1 hrec
        refine ⟨by simp [hl], ?_⟩
        intro t gde hget
        match t, hget with
        | 0, hget =>
          simp only [List.get?] at hget ⊢
          cases hget
          rfl
        | t + 1, hget => exact hent t gde hget

/-- Every loaded grain table has exactly `numGTEsPerGT` entries. -/
theorem load_gts_lengths (inf : List Nat) (n : Nat) :
    ∀ (gdes : List Nat) (gts : List (List Nat)),
      load_gts inf n gdes = .ok gts → ∀ gt ∈ gts, gt.length = n
  | [], gts, hrun => by
    simp only [load_gts] at hrun
    cases hrun
    intro gt hgt
    simp at hgt
  | gde0 :: rest, gts, hrun => by
    simp only [load_gts] at hrun
    by_cases hlen : (readAt inf (gde0 * SECTOR_SIZE) (n * 4)).length ≠ n * 4
    · rw [if_pos hlen] at hrun; cases hrun
    · rw [if_neg hlen] at hrun
      cases hrec : load_gts inf n rest with
      | error e => rw [hrec] at hrun; cases hrun
      | ok gts1 =>
        rw [hrec] at hrun
        cases hrun
        intro gt hgt
        rcases List.mem_cons.mp hgt with hgt | hgt
        · rw [hgt, unpackU32s_length, not_not.mp hlen]
          omega
        · exact load_gts_lengths inf n rest gts1 hrec gt hgt

/-- Inversion of a successful `read_source`. -/
theorem read_source_ok {inf : List Nat} {h : SparseHeader} {gts : List (List Nat)}
    (hr : read_source inf = .ok (h, gts)) :
    h = parse_header inf ∧
    load_gts inf h.numGTEsPerGT (source_gdes inf h) = .ok gts ∧
    h.grainSize * h.numGTEsPerGT ≠ 0 := by
  simp only [read_source] at hr
  by_cases h1 : (readAt inf 0 SECTOR_SIZE).length ≠ SECTOR_SIZE
  · rw [if_pos h1] at hr; cases hr
  · rw [if_neg h1] at hr
    by_cases h2 : (parse_header inf).grainSize * (parse_header inf).numGTEsPerGT = 0
    · rw [if_pos h2] at hr; cases hr
    · rw [if_neg h2] at hr
      by_cases h3 : (readAt inf ((parse_header inf).gdOffset * SECTOR_SIZE)
          (total_gts (parse_header inf) * 4)).length ≠ total_gts (parse_header inf) * 4
      · rw [if_pos h3] at hr; cases hr
      · rw [if_neg h3] at hr
        cases hload : load_gts inf (parse_header inf).numGTEsPerGT
            (source_gdes inf (parse_header inf)) with
        | error e =>
          rw [hload] at hr
          simp only [Except.map] at hr
          cases hr
        | ok gts1 =>
          rw [hload] at hr
          simp only [Except.map] at hr
          cases hr
          exact ⟨rfl, hload, h2⟩

/-- Inversion of a successful `emit_stream`: the loop result and how
every field of the returned record is put together from it. -/
theorem emit_stream_ok {compress : List Nat → List Nat} {dsc : List Nat} {h : SparseHeader}
    {gts : List (List Nat)} {inf : List Nat} {newsize : Nat} {r : TranscodeResult}
    (hr : emit_stream compress dsc h gts inf newsize = .ok r) :
    ∃ st gds,
      process_gts compress inf h.grainSize h.numGTEsPerGT (init_state dsc h newsize) gts
        = .ok (st, gds, r.gts) ∧
      (st.pos + SECTOR_SIZE) % SECTOR_SIZE = 0 ∧
      r.newGrainDirectory = final_gd h newsize gds ∧
      r.headerBytes = packHeader (new_header h newsize) ∧
      r.gdStartPos = st.pos + SECTOR_SIZE ∧
      r.gdOffsetNew = (st.pos + SECTOR_SIZE) / SECTOR_SIZE ∧
      r.footerBytes = packHeader { new_header h newsize with gdOffset := r.gdOffsetNew } ∧
      r.out = st.out ++
        (create_marker MARKER_GD
            ((pad_to_sector (packU32s (final_gd h newsize gds))).length / SECTOR_SIZE) 0 ++
          (pad_to_sector (packU32s (final_gd h newsize gds)) ++
            (create_marker MARKER_FOOTER 1 0 ++
              (r.footerBytes ++ create_marker MARKER_EOS 0 0)))) ∧
      r.markerPositions = st.markers ++ [st.pos] ++
        [st.pos + SECTOR_SIZE + (pad_to_sector (packU32s (final_gd h newsize gds))).length] ++
        [st.pos + SECTOR_SIZE + (pad_to_sector (packU32s (final_gd h newsize gds))).length
          + SECTOR_SIZE + SECTOR_SIZE] ∧
      r.endPos = st.pos + SECTOR_SIZE + (pad_to_sector (packU32s (final_gd h newsize gds))).length
          + SECTOR_SIZE + SECTOR_SIZE + SECTOR_SIZE := by
  simp only [emit_stream] at hr
  cases hloop : process_gts compress inf h.grainSize h.numGTEsPerGT
      (init_state dsc h newsize) gts with
  | error e => rw [hloop] at hr; cases hr
  | ok p =>
    obtain ⟨st, gds, ngts⟩ := p
    rw [hloop] at hr
    dsimp only [] at hr
    by_cases halign : (write_marker st (create_marker MARKER_GD
        ((pad_to_sector (packU32s (final_gd h newsize gds))).length / SECTOR_SIZE) 0)).pos
          % SECTOR_SIZE = 0
    · rw [if_neg (not_not_intro halign)] at hr
      cases hr
      refine ⟨st, gds, rfl, ?_, rfl, rfl, ?_, ?_, ?_, ?_, ?_, ?_⟩
      · simpa [write_marker, create_marker_length] using halign
      · simp [write_marker, create_marker_length]
      · simp [write_marker, create_marker_length]
      · rfl
      · simp [write, write_marker, List.append_assoc]
      · simp [write, write_marker, create_marker_length, packHeader_length, List.append_assoc]
      · simp [write, write_marker, create_marker_length, packHeader_length]
    · rw [if_pos halign] at hr
      cases hr

/-- Inversion of a successful full transcode. -/
theorem stream_optimize_ok {compress : List Nat → List Nat} {dsc inf : List Nat}
    {newsize : Nat} {r : TranscodeResult}
    (hr : stream_optimize_vmdk compress dsc inf newsize = .ok r) :
    ∃ gts, read_source inf = .ok (parse_header inf, gts) ∧
      emit_stream compress dsc (parse_header inf) gts inf newsize = .ok r := by
  simp only [stream_optimize_vmdk] at hr
  cases hsrc : read_source inf with
  | error e => rw [hsrc] at hr; cases hr
  | ok p =>
    obtain ⟨h0, gts0⟩ := p
    rw [hsrc] at hr
    obtain ⟨hh, -, -⟩ := read_source_ok hsrc
    subst hh
    exact ⟨gts0, rfl, hr⟩

/-- On success, the bytes written and the final file position agree. -/
theorem stream_optimize_out_length {compress : List Nat → List Nat} {dsc inf : List Nat}
    {newsize : Nat} {r : TranscodeResult}
    (hr : stream_optimize_vmdk compress dsc inf newsize = .ok r) :
    r.out.length = r.endPos := by
  obtain ⟨gts, hsrc, hemit⟩ := stream_optimize_ok hr
  obtain ⟨st, gds, hloop, -, -, -, -, -, hfoot, hout, -, hend⟩ := emit_stream_ok hemit
  obtain ⟨-, hwf', -, -⟩ := process_gts_spec _ _ _ _ gts _ _ _ _ hloop
    (wf_init_state dsc (parse_header inf) newsize)
  have hfl : r.footerBytes.length = SECTOR_SIZE := by rw [hfoot]; exact packHeader_length _
  rw [hout, hend]
  simp only [List.length_append, create_marker_length, hfl]
  have := hwf'
  simp only [GState.wf] at this
  omega

/-- Inversion of a successful `OVAFile.write` model. -/
theorem ovafile_write_ok {compress : List Nat → List Nat} {dsc src : List Nat}
    {disksize : Nat} {res : OVAResult}
    (hw : ovafile_write compress dsc src disksize = .ok res) :
    res.ovfFileSize = src.length ∧
    ∃ r, stream_optimize_vmdk compress dsc src disksize = .ok r ∧ res.vmdkOut = r.out := by
  simp only [ovafile_write] at hw
  cases hrun : stream_optimize_vmdk compress dsc src disksize with
  | error e => rw [hrun] at hw; cases hw
  | ok r =>
    rw [hrun] at hw
    cases hw
    exact ⟨rfl, r, rfl, rfl⟩

/-! ### Concrete test images -/

/-- A trivial invertible stand-in for `zlib.compress` in concrete runs:
prepend one tag byte (so the payload is never empty). -/
def tagCompress (b : List Nat) : List Nat := 0 :: b

/-- The matching stand-in for `zlib.decompress`: drop the tag byte. -/
def tagDecompress (b : List Nat) : List Nat := b.drop 1

/-- Header of a small monolithic-sparse image: capacity 128 sectors,
one sector per grain, 128 GTEs per GT (one GT in total), grain
directory at sector 1, overhead 3 sectors. -/
def hdrE : SparseHeader :=
  { magicNumber := 0x564D444B, version := 1, flags := 3, capacity := 128,
    grainSize := 1, descriptorOffset := 0, descriptorSize := 0,
    numGTEsPerGT := 128, rgdOffset := 0, gdOffset := 1, overHead := 3,
    uncleanShutdown := 0, singleEndLineChar := 10, nonEndLineChar := 32,
    doubleEndLineChar1 := 13, doubleEndLineChar2 := 10, compressAlgorithm := 0 }

/-- Image with one present grain: sector 0 header, sector 1 grain
directory (single GDE → sector 2), sector 2 grain table (first GTE → 3),
sector 3 the grain data (512 bytes of value 7). -/
def srcFileA : List Nat :=
  packHeader hdrE
  ++ (leBytes 4 2 ++ List.replicate 508 0)
  ++ (leBytes 4 3 ++ List.replicate 508 0)
  ++ List.replicate 512 7

/-- Image whose single grain table is entirely absent (all GTEs zero). -/
def srcFileB : List Nat :=
  packHeader hdrE
  ++ (leBytes 4 2 ++ List.replicate 508 0)
  ++ List.replicate 512 0

/-- `srcFileB` with the magic number corrupted to 0. -/
def srcFileC : List Nat :=
  packHeader { hdrE with magicNumber := 0 }
  ++ (leBytes 4 2 ++ List.replicate 508 0)
  ++ List.replicate 512 0

/-- Image whose single grain-directory entry is 0 (an absent grain
table): sector 0 header, then the 4-byte GD holding `0`. -/
def srcFileD : List Nat := packHeader hdrE ++ [0, 0, 0, 0]

/-- Stand-in bytes for the rendered image descriptor. -/
def dscA : List Nat := [35, 32, 68]

/-- A header with the typical stream-optimized geometry: 128 sectors per
grain and 512 GTEs per GT. -/
def stdHeader : SparseHeader :=
  { hdrE with grainSize := 128, numGTEsPerGT := 512 }

/-! ### The claims -/

/-- C5: for every target size in GiB and every header, the emitted
capacity equals `newGTs * sectorsInGT` with
`newGTs = ceil((targetGiB * 2^30 / 512) / sectorsInGT)` and
`sectorsInGT = grainSize * numGTEsPerGT`; consequently the emitted
capacity is at least `targetGiB * 2^30 / 512` sectors (the requested
sector count, whose value is exactly `targetGiB * 2^30 / 512`), and a
successful transcode stores exactly this capacity in bytes 12-19 of the
emitted header sector. -/
theorem c5_capacity_rounding (hdr : SparseHeader) (newsize : Nat)
    (hpos : 0 < hdr.grainSize * hdr.numGTEsPerGT) :
    new_capacity hdr newsize = new_GTs hdr newsize * (hdr.grainSize * hdr.numGTEsPerGT) ∧
    new_GTs hdr newsize
      = (requested_sectors newsize + hdr.grainSize * hdr.numGTEsPerGT - 1)
        / (hdr.grainSize * hdr.numGTEsPerGT) ∧
    requested_sectors newsize * SECTOR_SIZE = newsize * (1024 * 1024 * 1024) ∧
    requested_sectors newsize ≤ new_capacity hdr newsize ∧
    ∀ (compress : List Nat → List Nat) (dsc inf : List Nat) (r : TranscodeResult),
      parse_header inf = hdr →
      stream_optimize_vmdk compress dsc inf newsize = .ok r →
      readAt r.headerBytes 12 8 = leBytes 8 (new_capacity hdr newsize) := by
  refine ⟨rfl, rfl, ?_, ?_, ?_⟩
  · simp only [requested_sectors, SECTOR_SIZE]
    omega
  · simp only [new_capacity, new_GTs]
    exact le_ceil_mul hpos
  · intro compress dsc inf r hhdr hrun
    obtain ⟨gts, hsrc, hemit⟩ := stream_optimize_ok hrun
    obtain ⟨st, gds, -, -, -, hhead, -⟩ := emit_stream_ok hemit
    rw [hhead, packHeader_capacity_seg, hhdr]
    rfl

/-- Witness for C5 at the concrete header `hdrE` and a 10 GiB target. -/
theorem c5_capacity_rounding_witness :
    0 < hdrE.grainSize * hdrE.numGTEsPerGT ∧
    (new_capacity hdrE 10 = new_GTs hdrE 10 * (hdrE.grainSize * hdrE.numGTEsPerGT) ∧
     new_GTs hdrE 10
       = (requested_sectors 10 + hdrE.grainSize * hdrE.numGTEsPerGT - 1)
         / (hdrE.grainSize * hdrE.numGTEsPerGT) ∧
     requested_sectors 10 * SECTOR_SIZE = 10 * (1024 * 1024 * 1024) ∧
     requested_sectors 10 ≤ new_capacity hdrE 10 ∧
     ∀ (compress : List Nat → List Nat) (dsc inf : List Nat) (r : TranscodeResult),
       parse_header inf = hdrE →
       stream_optimize_vmdk compress dsc inf 10 = .ok r →
       readAt r.headerBytes 12 8 = leBytes 8 (new_capacity hdrE 10)) :=
  ⟨by decide, c5_capacity_rounding hdrE 10 (by decide)⟩

/-- C8 (code bug): line 126 computes the cylinder count with Python 3
float division, so the value substituted into the descriptor is the
non-integral quotient `(capacity + 16064) / 16065` (rendered by `str` as
a float such as `"1306.41..."`), not the integer ceiling
`ceil(capacity / (63*255))` the template documents.  At the capacity a
10 GiB target produces under the standard geometry the exact ceiling is
1306, but the substituted value differs from it (and from every
integer). -/
theorem c8_cylinders_float_bug :
    cylinders_spec (new_capacity stdHeader 10) = 1306 ∧
    cylinders_code (new_capacity stdHeader 10)
      ≠ ((cylinders_spec (new_capacity stdHeader 10) : Nat) : Rat) ∧
    cylinders_code (new_capacity stdHeader 10) ≠ (1306 : Rat) := by
  have hcap : new_capacity stdHeader 10 = 20971520 := by decide
  rw [hcap]
  refine ⟨by norm_num [cylinders_spec], ?_, ?_⟩
  · norm_num [cylinders_code, cylinders_spec]
  · norm_num [cylinders_code]

/-- C10: `OVAFile.write` first unlinks an existing file at the output
path and then creates the archive with `tarfile.open(…, 'x')`, so the
creation never fails because the path exists, and whatever was stored
there before is replaced by the new archive. -/
theorem c10_write_replaces_existing (fs : FS) (outpath : String) (archive : List Nat) :
    ∃ fs', ovafile_write_out fs outpath archive = .ok fs' ∧ fs' outpath = some archive := by
  unfold ovafile_write_out tarfile_create_x os_path_exists os_unlink
  cases hfs : fs outpath with
  | none => simp [hfs]
  | some v => simp [hfs]

/-- C2 (code bug): a target capacity smaller than the source capacity is
not rejected — there is no `ResizeTooSmall` check anywhere in
`stream_optimize_vmdk` — and the transcode runs to completion.  Here the
source advertises 128 sectors, the target is 0 GiB (so the computed new
capacity 0 is smaller), and the function still succeeds. -/
theorem c2_shrink_not_rejected :
    new_capacity (parse_header srcFileB) 0 < (parse_header srcFileB).capacity ∧
    (stream_optimize_vmdk tagCompress dscA srcFileB 0).isOk = true := by
  refine ⟨by decide, by decide⟩

/-- C3 (code bug): the header parse validates nothing — a magic number
of 0 is accepted, the transcode succeeds, and the corrupted magic is
even copied into the output header, instead of the run failing with
`BadMagic`. -/
theorem c3_bad_magic_not_rejected :
    (parse_header srcFileC).magicNumber = 0 ∧
    (stream_optimize_vmdk tagCompress dscA srcFileC 0).isOk = true ∧
    (stream_optimize_vmdk tagCompress dscA srcFileC 0).toOption.map
      (fun r => readAt r.out 0 4) = some [0, 0, 0, 0] := by
  refine ⟨by decide, by decide, by decide⟩

/-- C4 counterexample: on an image whose (single) grain-directory entry
is 0, the loader does not materialize an all-zero grain table; it seeks
to offset 0 and reads the header sector as the grain table, whose first
entry decodes to the magic number — not zero. -/
theorem c4_counterexample :
    source_gdes srcFileD (parse_header srcFileD) = [0] ∧
    (load_gts srcFileD (parse_header srcFileD).numGTEsPerGT
        (source_gdes srcFileD (parse_header srcFileD))).toOption
      = some [unpackU32s (readAt srcFileD 0 ((parse_header srcFileD).numGTEsPerGT * 4))] ∧
    unpackU32s (readAt srcFileD 0 ((parse_header srcFileD).numGTEsPerGT * 4))
      ≠ List.replicate (parse_header srcFileD).numGTEsPerGT 0 := by
  refine ⟨by decide, by decide, by decide⟩

/-- C4 (amended): the loader seeks and reads `numGTEsPerGT*4` bytes of
GTEs for EVERY grain-directory entry, the zero entries included; a GDE
equal to 0 is materialized as the decode of the bytes read at file
offset 0 (the header sector), not as an all-zero grain table. -/
theorem c4_loader_reads_every_gde (inf : List Nat) (n : Nat) (gdes : List Nat)
    (gts : List (List Nat)) (hld : load_gts inf n gdes = .ok gts) :
    gts.length = gdes.length ∧
    ∀ t gde, gdes.get? t = some gde →
      gts.get? t = some (unpackU32s (readAt inf (gde * SECTOR_SIZE) (n * 4))) :=
  load_gts_spec inf n gdes gts hld

/-- Witness for the amended C4 on the concrete image with a zero GDE. -/
theorem c4_loader_reads_every_gde_witness :
    ∃ gts, load_gts srcFileD 128 [0] = .ok gts ∧ gts.length = 1 ∧
      gts.get? 0 = some (unpackU32s (readAt srcFileD (0 * SECTOR_SIZE) (128 * 4))) := by
  cases hld : load_gts srcFileD 128 [0] with
  | error e =>
    have hok : (load_gts srcFileD 128 [0]).isOk = true := by decide
    rw [hld] at hok
    cases hok
  | ok gts =>
    obtain ⟨hl, hent⟩ := c4_loader_reads_every_gde srcFileD 128 [0] gts hld
    exact ⟨gts, rfl, by simpa using hl, hent 0 0 rfl⟩

/-- C9 counterexample: the `ovf:size` attribute written into
`References/File` is the byte size of the SOURCE vmdk (1536 bytes here),
not the size of the transcoded stream-optimized VMDK placed in the
archive (4096 bytes here). -/
theorem c9_counterexample :
    ∃ res, ovafile_write tagCompress dscA srcFileB 0 = .ok res ∧
      res.ovfFileSize = 1536 ∧ res.vmdkOut.length = 4096 ∧ srcFileB.length = 1536 := by
  cases hw : ovafile_write tagCompress dscA srcFileB 0 with
  | error e =>
    have hok : (ovafile_write tagCompress dscA srcFileB 0).isOk = true := by decide
    rw [hw] at hok
    cases hok
  | ok res =>
    obtain ⟨hsize, r, hrun, hout⟩ := ovafile_write_ok hw
    have hsrclen : srcFileB.length = 1536 := by
      simp [srcFileB, packHeader_length, leBytes_length, SECTOR_SIZE]
    have hend : r.endPos = 4096 := by
      have hmap : (stream_optimize_vmdk tagCompress dscA srcFileB 0).toOption.map
          TranscodeResult.endPos = some 4096 := by decide
      rw [hrun] at hmap
      simp only [Except.toOption, Option.map_some', Option.some.injEq] at hmap
      exact hmap
    refine ⟨res, rfl, by rw [hsize, hsrclen], ?_, hsrclen⟩
    rw [hout, stream_optimize_out_length hrun, hend]

/-- C9 (amended): the `ovf:size` attribute always equals the byte size
of the SOURCE vmdk — `OVAFile.__generate_ovf` reads
`os.path.getsize(self.__vmdk)` before the transcode even runs. -/
theorem c9_size_is_source_size (compress : List Nat → List Nat) (dsc src : List Nat)
    (disksize : Nat) (res : OVAResult)
    (hw : ovafile_write compress dsc src disksize = .ok res) :
    res.ovfFileSize = src.length :=
  (ovafile_write_ok hw).1

/-- Witness for the amended C9 on the concrete image. -/
theorem c9_size_is_source_size_witness :
    ∃ res, ovafile_write tagCompress dscA srcFileB 0 = .ok res ∧
      res.ovfFileSize = srcFileB.length := by
  cases hw : ovafile_write tagCompress dscA srcFileB 0 with
  | error e =>
    have hok : (ovafile_write tagCompress dscA srcFileB 0).isOk = true := by decide
    rw [hw] at hok
    cases hok
  | ok res => exact ⟨res, rfl, c9_size_is_source_size tagCompress dscA srcFileB 0 res hw⟩

theorem init_state_out (dsc : List Nat) (h : SparseHeader) (newsize : Nat) :
    ∃ t, (init_state dsc h newsize).out = packHeader (new_header h newsize) ++ t := by
  simp only [init_state, write]
  split
  · exact ⟨pad_to_sector dsc ++ List.replicate
      (h.overHead * SECTOR_SIZE -
        (0 + (packHeader (new_header h newsize)).length + (pad_to_sector dsc).length)) 0,
      by simp [List.append_assoc]⟩
  · exact ⟨pad_to_sector dsc, by simp⟩

/-- C6: on every successful transcode the footer header sector is
byte-identical to the head header sector outside the `gdOffset` field
(bytes 56-63), the footer's `gdOffset` records the sector number at
which the grain-directory bytes begin, and the output ends with
GD marker, GD bytes, footer marker, footer header, EOS marker — the
footer header sitting right after the footer marker. -/
theorem c6_footer_matches_header (compress : List Nat → List Nat) (dsc inf : List Nat)
    (newsize : Nat) (r : TranscodeResult)
    (hrun : stream_optimize_vmdk compress dsc inf newsize = .ok r) :
    r.headerBytes.length = SECTOR_SIZE ∧
    r.footerBytes.length = SECTOR_SIZE ∧
    readAt r.out 0 SECTOR_SIZE = r.headerBytes ∧
    (∀ k, k < 56 ∨ 64 ≤ k → r.footerBytes.get? k = r.headerBytes.get? k) ∧
    readAt r.footerBytes 56 8 = leBytes 8 r.gdOffsetNew ∧
    r.gdOffsetNew * SECTOR_SIZE = r.gdStartPos ∧
    ∃ pre gdBytes,
      gdBytes = pad_to_sector (packU32s r.newGrainDirectory) ∧
      r.out = pre ++ (create_marker MARKER_GD (gdBytes.length / SECTOR_SIZE) 0 ++
        (gdBytes ++ (create_marker MARKER_FOOTER 1 0 ++
          (r.footerBytes ++ create_marker MARKER_EOS 0 0)))) ∧
      r.gdStartPos = pre.length + SECTOR_SIZE := by
  obtain ⟨gts, hsrc, hemit⟩ := stream_optimize_ok hrun
  obtain ⟨st, gds, hloop, halign, hngd, hhead, hgdstart, hgdoff, hfoot, hout, -, -⟩ :=
    emit_stream_ok hemit
  obtain ⟨⟨suf, hsuf⟩, hwf', -, -⟩ := process_gts_spec _ _ _ _ gts _ _ _ _ hloop
    (wf_init_state dsc (parse_header inf) newsize)
  refine ⟨by rw [hhead]; exact packHeader_length _,
    by rw [hfoot]; exact packHeader_length _, ?_, ?_, ?_, ?_, ?_⟩
  · obtain ⟨t0, hinit⟩ := init_state_out dsc (parse_header inf) newsize
    rw [hout, hsuf, hinit, hhead]
    rw [List.append_assoc, List.append_assoc]
    rw [readAt_zero, take_exact _ _ SECTOR_SIZE (packHeader_length _)]
  · intro k hk
    rw [hfoot, hhead]
    exact packHeader_agree_outside_gdOffset _ _ k hk
  · rw [hfoot, packHeader_gdOffset_seg]
  · rw [hgdoff, hgdstart]
    exact Nat.div_mul_cancel (Nat.dvd_of_mod_eq_zero halign)
  · refine ⟨st.out, pad_to_sector (packU32s r.newGrainDirectory), rfl, ?_, ?_⟩
    · rw [hout, hngd]
    · rw [hgdstart]
      have := hwf'
      simp only [GState.wf] at this
      omega

/-- Witness for C6 on the concrete image `srcFileA`. -/
theorem c6_footer_matches_header_witness :
    ∃ r, stream_optimize_vmdk tagCompress dscA srcFileA 0 = .ok r ∧
      (r.headerBytes.length = SECTOR_SIZE ∧
       r.footerBytes.length = SECTOR_SIZE ∧
       readAt r.out 0 SECTOR_SIZE = r.headerBytes ∧
       (∀ k, k < 56 ∨ 64 ≤ k → r.footerBytes.get? k = r.headerBytes.get? k) ∧
       readAt r.footerBytes 56 8 = leBytes 8 r.gdOffsetNew ∧
       r.gdOffsetNew * SECTOR_SIZE = r.gdStartPos ∧
       ∃ pre gdBytes,
         gdBytes = pad_to_sector (packU32s r.newGrainDirectory) ∧
         r.out = pre ++ (create_marker MARKER_GD (gdBytes.length / SECTOR_SIZE) 0 ++
           (gdBytes ++ (create_marker MARKER_FOOTER 1 0 ++
             (r.footerBytes ++ create_marker MARKER_EOS 0 0)))) ∧
         r.gdStartPos = pre.length + SECTOR_SIZE) := by
  cases hrun : stream_optimize_vmdk tagCompress dscA srcFileA 0 with
  | error e =>
    have hok : (stream_optimize_vmdk tagCompress dscA srcFileA 0).isOk = true := by decide
    rw [hrun] at hok
    cases hok
  | ok r => exact ⟨r, rfl, c6_footer_matches_header tagCompress dscA srcFileA 0 r hrun⟩

theorem load_gts_no_alignment (inf : List Nat) (n : Nat) :
    ∀ gdes : List Nat, load_gts inf n gdes ≠ .error .alignment
  | [] => by simp [load_gts]
  | gde :: rest => by
    simp only [load_gts]
    split
    · simp
    · cases hrec : load_gts inf n rest with
      | error e =>
        intro hco
        cases hco
        exact load_gts_no_alignment inf n rest hrec
      | ok gts1 => simp

theorem read_source_no_alignment (inf : List Nat) : read_source inf ≠ .error .alignment := by
  simp only [read_source]
  split
  · simp
  · split
    · simp
    · split
      · simp
      · cases hload : load_gts inf (parse_header inf).numGTEsPerGT
            (source_gdes inf (parse_header inf)) with
        | error e =>
          simp only [Except.map]
          intro hco
          cases hco
          exact load_gts_no_alignment _ _ _ hload
        | ok g => simp [Except.map]

/-- C7: when the parsed header's grain tables occupy a whole number of
sectors (`numGTEsPerGT*4` divisible by 512 — true of every conforming
monolithic-sparse image, where `numGTEsPerGT` is 512), the transcoder
never returns the alignment error (the `raise Exception` branches are
unreachable), and on success every marker was written at an output
position that is a multiple of 512. -/
theorem c7_markers_aligned (compress : List Nat → List Nat) (dsc inf : List Nat) (newsize : Nat)
    (hdvd : (parse_header inf).numGTEsPerGT * 4 % SECTOR_SIZE = 0) :
    stream_optimize_vmdk compress dsc inf newsize ≠ .error .alignment ∧
    ∀ r, stream_optimize_vmdk compress dsc inf newsize = .ok r →
      ∀ p ∈ r.markerPositions, p % SECTOR_SIZE = 0 := by
  cases hsrc : read_source inf with
  | error e =>
    have hene : e ≠ .alignment := by
      intro he
      subst he
      exact read_source_no_alignment inf hsrc
    constructor
    · simp only [stream_optimize_vmdk, hsrc]
      intro hco
      cases hco
      exact hene rfl
    · intro r hrun
      simp only [stream_optimize_vmdk, hsrc] at hrun
      cases hrun
  | ok p =>
    obtain ⟨h0, gts⟩ := p
    obtain ⟨hh0, hload, -⟩ := read_source_ok hsrc
    subst hh0
    have hlens := load_gts_lengths inf _ _ gts hload
    obtain ⟨st0, gds0, ngts0, hrun0, hpos0, hmk0⟩ :=
      process_gts_align compress inf (parse_header inf).grainSize
        (parse_header inf).numGTEsPerGT hdvd gts
        (init_state dsc (parse_header inf) newsize) hlens
        (init_state_pos_mod dsc (parse_header inf) newsize)
        (by rw [init_state_markers]; intro q hq; simp at hq)
    have hcheck : (write_marker st0 (create_marker MARKER_GD
        ((pad_to_sector (packU32s (final_gd (parse_header inf) newsize gds0))).length
          / SECTOR_SIZE) 0)).pos % SECTOR_SIZE = 0 := by
      simp only [write_marker, create_marker_length]
      exact add_mod_zero hpos0 (Nat.mod_self _)
    have hemit : ∃ r', emit_stream compress dsc (parse_header inf) gts inf newsize = .ok r' := by
      simp only [emit_stream, hrun0]
      rw [if_neg (not_not_intro hcheck)]
      exact ⟨_, rfl⟩
    obtain ⟨r', hemit'⟩ := hemit
    constructor
    · simp only [stream_optimize_vmdk, hsrc, hemit']
      simp
    · intro r hrun
      obtain ⟨gts', hsrc', hemit2⟩ := stream_optimize_ok hrun
      rw [hsrc] at hsrc'
      have hg : gts = gts' := congrArg Prod.snd (Except.ok.inj hsrc')
      subst hg
      obtain ⟨st, gds, hloop, -, -, -, -, -, -, -, hmks, -⟩ := emit_stream_ok hemit2
      rw [hrun0] at hloop
      have h1 := Except.ok.inj hloop
      have hst : st0 = st := congrArg Prod.fst h1
      have hgds : gds0 = gds := congrArg (fun x => x.2.1) h1
      subst hst
      subst hgds
      intro q hq
      rw [hmks] at hq
      simp only [List.mem_append, List.mem_singleton] at hq
      have hpadmod := pad_to_sector_length_mod (packU32s (final_gd (parse_header inf) newsize gds0))
      rcases hq with ((hq | hq) | hq) | hq
      · exact hmk0 q hq
      · rw [hq]; exact hpos0
      · rw [hq]
        exact add_mod_zero (add_mod_zero hpos0 (Nat.mod_self _)) hpadmod
      · rw [hq]
        exact add_mod_zero (add_mod_zero (add_mod_zero
          (add_mod_zero hpos0 (Nat.mod_self _)) hpadmod) (Nat.mod_self _)) (Nat.mod_self _)

/-- Witness for C7 on the concrete image `srcFileA` (whose header has
128 GTEs per GT, so a grain table is exactly one sector). -/
theorem c7_markers_aligned_witness :
    stream_optimize_vmdk tagCompress dscA srcFileA 0 ≠ .error .alignment ∧
    ∀ r, stream_optimize_vmdk tagCompress dscA srcFileA 0 = .ok r →
      ∀ p ∈ r.markerPositions, p % SECTOR_SIZE = 0 :=
  c7_markers_aligned tagCompress dscA srcFileA 0 (by decide)

/-- C1: in every successful transcode, for every source grain present in
the loaded tables (GTE > 1), the sector recorded in the corresponding
rewritten GTE addresses a grain marker in the output whose size field
(bytes 8-11) is non-zero and holds the length of the compressed payload,
and decompressing the payload found there yields exactly the bytes read
from the source at that grain (which are `grainSize*512` bytes whenever
the source file covers the grain).  `compress`/`decompress` stand for
`zlib.compress`/`zlib.decompress`; the hypotheses state the three facts
used about them at this grain: the compressed payload is non-empty,
shorter than 2^32 bytes, and decompresses to its input. -/
theorem c1_grains_lossless
    (compress decompress : List Nat → List Nat) (dsc inf : List Nat) (newsize : Nat)
    (r : TranscodeResult) (gts0 : List (List Nat))
    (t i off g : Nat) (gt0 gt1 : List Nat)
    (hrun : stream_optimize_vmdk compress dsc inf newsize = .ok r)
    (hload : load_gts inf (parse_header inf).numGTEsPerGT
      (source_gdes inf (parse_header inf)) = .ok gts0)
    (ht0 : gts0.get? t = some gt0)
    (hoff : gt0.get? i = some off)
    (h1 : 1 < off)
    (ht1 : r.gts.get? t = some gt1)
    (hg : gt1.get? i = some g)
    (hcpos : 0 < (comp_of compress inf (parse_header inf).grainSize off).length)
    (hcsz : (comp_of compress inf (parse_header inf).grainSize off).length < 2 ^ 32)
    (hinv : decompress (comp_of compress inf (parse_header inf).grainSize off)
        = readAt inf (off * SECTOR_SIZE) ((parse_header inf).grainSize * SECTOR_SIZE)) :
    leVal (readAt r.out (g * SECTOR_SIZE + 8) 4) ≠ 0 ∧
    decompress (readAt r.out (g * SECTOR_SIZE + 12)
        (leVal (readAt r.out (g * SECTOR_SIZE + 8) 4)))
      = readAt inf (off * SECTOR_SIZE) ((parse_header inf).grainSize * SECTOR_SIZE) ∧
    (off * SECTOR_SIZE + (parse_header inf).grainSize * SECTOR_SIZE ≤ inf.length →
      (readAt inf (off * SECTOR_SIZE) ((parse_header inf).grainSize * SECTOR_SIZE)).length
        = (parse_header inf).grainSize * SECTOR_SIZE) := by
  obtain ⟨gts, hsrc, hemit⟩ := stream_optimize_ok hrun
  obtain ⟨-, hload', -⟩ := read_source_ok hsrc
  rw [hload] at hload'
  have hgts : gts0 = gts := congrArg id (Except.ok.inj hload')
  subst hgts
  obtain ⟨st, gds, hloop, -, -, -, -, -, -, hout, -, -⟩ := emit_stream_ok hemit
  obtain ⟨-, -, -, hent⟩ := process_gts_spec _ _ _ _ gts0 _ _ _ _ hloop
    (wf_init_state dsc (parse_header inf) newsize)
  obtain ⟨gt1', hgt1', hent'⟩ := hent t gt0 ht0
  rw [ht1] at hgt1'
  have hgt1eq : gt1 = gt1' := Option.some.inj hgt1'
  subst hgt1eq
  obtain ⟨g', hg', hga⟩ := hent' i off hoff h1
  rw [hg] at hg'
  have hgeq : g = g' := Option.some.inj hg'
  subst hgeq
  have hgar : grain_at compress inf (parse_header inf).grainSize r.out off g := by
    rw [hout]
    exact grain_at_mono _ hga
  obtain ⟨hb, h8, h12⟩ := hgar
  have hsz : leVal (readAt r.out (g * SECTOR_SIZE + 8) 4)
      = (comp_of compress inf (parse_header inf).grainSize off).length := by
    rw [h8]
    exact leVal_leBytes_of_lt hcsz
  refine ⟨?_, ?_, ?_⟩
  · rw [hsz]
    omega
  · rw [hsz, h12, hinv]
  · intro hcov
    exact readAt_length hcov

/-- Witness for C1 on the concrete image `srcFileA`: its one present
grain (source GTE 3) is rewritten to output sector 3, whose marker
carries a non-zero size and a payload that decompresses to the source
grain bytes. -/
theorem c1_grains_lossless_witness :
    ∃ r gts0, stream_optimize_vmdk tagCompress dscA srcFileA 0 = .ok r ∧
      load_gts srcFileA (parse_header srcFileA).numGTEsPerGT
        (source_gdes srcFileA (parse_header srcFileA)) = .ok gts0 ∧
      gts0.get? 0 = some (3 :: List.replicate 127 0) ∧
      (3 :: List.replicate 127 0).get? 0 = some 3 ∧
      r.gts.get? 0 = some (3 :: List.replicate 127 0) ∧
      (leVal (readAt r.out (3 * SECTOR_SIZE + 8) 4) ≠ 0 ∧
       tagDecompress (readAt r.out (3 * SECTOR_SIZE + 12)
           (leVal (readAt r.out (3 * SECTOR_SIZE + 8) 4)))
         = readAt srcFileA (3 * SECTOR_SIZE) ((parse_header srcFileA).grainSize * SECTOR_SIZE) ∧
       (3 * SECTOR_SIZE + (parse_header srcFileA).grainSize * SECTOR_SIZE ≤ srcFileA.length →
         (readAt srcFileA (3 * SECTOR_SIZE)
             ((parse_header srcFileA).grainSize * SECTOR_SIZE)).length
           = (parse_header srcFileA).grainSize * SECTOR_SIZE)) := by
  cases hrun : stream_optimize_vmdk tagCompress dscA srcFileA 0 with
  | error e =>
    have hok : (stream_optimize_vmdk tagCompress dscA srcFileA 0).isOk = true := by decide
    rw [hrun] at hok
    cases hok
  | ok r =>
    cases hload : load_gts srcFileA (parse_header srcFileA).numGTEsPerGT
        (source_gdes srcFileA (parse_header srcFileA)) with
    | error e =>
      have hok : (load_gts srcFileA (parse_header srcFileA).numGTEsPerGT
          (source_gdes srcFileA (parse_header srcFileA))).isOk = true := by decide
      rw [hload] at hok
      cases hok
    | ok gts0 =>
      have hgts0 : gts0 = [3 :: List.replicate 127 0] := by
        have hv : (load_gts srcFileA (parse_header srcFileA).numGTEsPerGT
            (source_gdes srcFileA (parse_header srcFileA))).toOption
            = some [3 :: List.replicate 127 0] := by decide
        rw [hload] at hv
        simp only [Except.toOption, Option.some.injEq] at hv
        exact hv
      subst hgts0
      have hrgts : r.gts = [3 :: List.replicate 127 0] := by
        have hv : (stream_optimize_vmdk tagCompress dscA srcFileA 0).toOption.map
            TranscodeResult.gts = some [3 :: List.replicate 127 0] := by decide
        rw [hrun] at hv
        simp only [Except.toOption, Option.map_some', Option.some.injEq] at hv
        exact hv
      refine ⟨r, [3 :: List.replicate 127 0], rfl, rfl, by simp, by simp,
        by rw [hrgts]; simp, ?_⟩
      exact c1_grains_lossless tagCompress tagDecompress dscA srcFileA 0 r
        [3 :: List.replicate 127 0] 0 0 3 3 (3 :: List.replicate 127 0)
        (3 :: List.replicate 127 0) hrun hload (by simp) (by simp) (by omega)
        (by rw [hrgts]; simp) (by simp) (by decide) (by decide) rfl

/-- Witness for C10 at a concrete filesystem that already holds a file
at the output path. -/
theorem c10_write_replaces_existing_witness :
    ∃ fs', ovafile_write_out (fun _ => some [1, 2, 3]) "out.ova" [9, 9] = .ok fs' ∧
      fs' "out.ova" = some [9, 9] :=
  c10_write_replaces_existing (fun _ => some [1, 2, 3]) "out.ova" [9, 9]

end Mkova
